import Mathlib

/-!
Verification of the purge engine of `src/main.rs` (a message-retention
moderation command).  The Rust source is shallowly embedded below:

* `messages_before`  — the history fetch (main.rs lines 46–62);
* `slowIndex` / `bulkCount` / `slowCount` and the minute estimates
  — the planning part of `purge_old` (main.rs lines 145–185);
* `bulk_delete` / `slow_bulk_delete` — the two deletion phases
  (main.rs lines 64–114), with the rate meter modelled by an explicit
  virtual clock;
* `purge_old` — the orchestrating command handler (main.rs lines 123–229).

Timestamps are modelled as `Int` seconds (chrono `DateTime<Utc>`); the
tokio `Instant` clock used for pacing is a separate `Nat` clock.
-/

/-- main.rs line 17: `const METER_LIMIT: usize = 500;` -/
def METER_LIMIT : Nat := 500

/-- Seconds in one day, the unit conversion for chrono `Duration::days`. -/
def secondsPerDay : Int := 86400

/-- Seconds in one hour, for chrono `Duration::hours`. -/
def secondsPerHour : Int := 3600

/-- Chrono `Duration::weeks(2)` from the assertion in `bulk_delete`. -/
def twoWeeks : Int := 14 * secondsPerDay

/-- A Discord message as the purge engine reads it: an identifier, a UTC
creation timestamp (seconds), and the owning channel. -/
structure Msg where
  id : Nat
  timestamp : Int
  channel : Nat
deriving DecidableEq, Repr

/-! ## HistoryFetcher: `messages_before` (main.rs 46–62)

The serenity stream `channel.messages_iter(ctx)` yields
`Result<Message, Error>` items; we model the stream as a
`List (Except Unit Msg)`.  The source applies `skip_while` with predicate
`v.as_ref().map(|msg| msg.timestamp.to_utc() >= before).unwrap_or(false)`
and then `try_collect`s the rest. -/

/-- The `skip_while` predicate of `messages_before`: skip an `Ok` message
whose timestamp is at or after `before`; an `Err` item maps to `false`
(`unwrap_or(false)`), stopping the skip. -/
def skipPred (before : Int) : Except Unit Msg → Bool
  | .ok msg => decide (before ≤ msg.timestamp)
  | .error _ => false

/-- Model of `try_collect`: collect `Ok` items in order; the first `Err` aborts the
whole collection with that error and no partial result. -/
def tryCollect : List (Except Unit Msg) → Except Unit (List Msg)
  | [] => .ok []
  | .error e :: _ => .error e
  | .ok m :: rest => (tryCollect rest).map (fun ms => m :: ms)

/-- main.rs 46–62: `messages_before(ctx, before, channel)` — skip the
leading messages at or after `before`, then try-collect the remainder. -/
def messages_before (before : Int) (hist : List (Except Unit Msg)) :
    Except Unit (List Msg) :=
  tryCollect (hist.dropWhile (skipPred before))

/-! ## PurgePlanner: the classification in `purge_old` (main.rs 145–185) -/

/-- main.rs 145–149: `messages.iter().enumerate().find(|(_, msg)|
msg.timestamp.to_utc() < bulk_cutoff)` — the index of the first (newest)
candidate strictly older than the bulk cutoff, if any. -/
def slowIndex (bulkCutoff : Int) (messages : List Msg) : Option Nat :=
  messages.findIdx? (fun msg => decide (msg.timestamp < bulkCutoff))

/-- main.rs 150: `old_message_count = messages.len() - idx` when a slow
message exists, zero otherwise. -/
def slowCount (bulkCutoff : Int) (messages : List Msg) : Nat :=
  match slowIndex bulkCutoff messages with
  | some idx => messages.length - idx
  | none => 0

/-- main.rs 168: `let bulk_count = slow_index.unwrap_or(0);`. -/
def bulkCount (bulkCutoff : Int) (messages : List Msg) : Nat :=
  (slowIndex bulkCutoff messages).getD 0

/-- main.rs 150–151: slow-phase estimate in minutes,
`old_message_count as f64 / METER_LIMIT as f64` when a slow message
exists, else `0.`.  The `f64` arithmetic is modelled at exact rational
precision. -/
def planSlowEstimate (bulkCutoff : Int) (messages : List Msg) : ℚ :=
  match slowIndex bulkCutoff messages with
  | some idx => ((messages.length - idx : ℕ) : ℚ) / (METER_LIMIT : ℚ)
  | none => 0

/-- main.rs 169–183: bulk-phase estimate in minutes,
`bulk_count as f64 / (METER_LIMIT * 100) as f64` when `bulk_count > 0`,
else `0.`.  The `f64` arithmetic is modelled at exact rational
precision. -/
def planBulkEstimate (bulkCutoff : Int) (messages : List Msg) : ℚ :=
  if 0 < bulkCount bulkCutoff messages then
    ((bulkCount bulkCutoff messages : ℕ) : ℚ) / ((METER_LIMIT * 100 : ℕ) : ℚ)
  else 0

/-- main.rs 145–185: `minutes` after both `write!` blocks — the slow
estimate plus the bulk estimate. -/
def planTotalEstimate (bulkCutoff : Int) (messages : List Msg) : ℚ :=
  planSlowEstimate bulkCutoff messages + planBulkEstimate bulkCutoff messages

/-! ## PurgeExecutor: `bulk_delete` and `slow_bulk_delete` (main.rs 64–114)

Both phases pace themselves with the shared pattern: a `count` and a
`start_time` (tokio `Instant`), incrementing `count` after each loop body
and, once `count` reaches `METER_LIMIT`, sleeping until
`start_time + 60 s` before resetting `count` to `0` and `start_time` to
the resumption instant.

The tokio clock is a `Nat` (seconds).  The wall-clock cost of iteration
`i`'s body (the network delete call, or nothing in a dry run staying at
the same instant) is supplied as a duration function `durs i`;
`sleep_until t` advances the clock to `max now t`. -/

/-- A destructive platform call issued by a deletion phase. -/
inductive Call where
  | deleteCall (msg : Msg)
  | bulkDeleteCall (chunk : List Msg)
deriving DecidableEq, Repr

/-- One counted rate-meter operation: the instant the call is issued and
the meter's window start at that moment. -/
structure OpEvent where
  time : Nat
  windowStart : Nat
deriving DecidableEq, Repr

/-- Model of `messages.chunks(100)`: consecutive groups of at most 100 messages in
the original order (every group non-empty, the last possibly short). -/
def chunks100 (l : List Msg) : List (List Msg) :=
  if h : l = [] then []
  else l.take 100 :: chunks100 (l.drop 100)
termination_by l.length
decreasing_by
  simp only [List.length_drop]
  exact Nat.sub_lt (List.length_pos.mpr h) (by norm_num)

/-- main.rs 100–111: the loop body of `slow_bulk_delete`, threading
`count` and `start_time` through the iterations exactly as the source
does; returns the issued calls and the counted operation events.
`i` indexes iterations for the duration function. -/
def slowLoop (dry_run : Bool) (durs : Nat → Nat) :
    List Msg → Nat → Nat → Nat → Nat → List Call × List OpEvent
  | [], _, _, _, _ => ([], [])
  | message :: rest, count, start_time, now, i =>
    let calls0 : List Call := if dry_run then [] else [.deleteCall message]
    let ev : OpEvent := ⟨now, start_time⟩
    let now1 := now + durs i
    let count1 := count + 1
    if METER_LIMIT ≤ count1 then
      let now2 := max now1 (start_time + 60)
      let res := slowLoop dry_run durs rest 0 now2 now2 (i + 1)
      (calls0 ++ res.1, ev :: res.2)
    else
      let res := slowLoop dry_run durs rest count1 start_time now1 (i + 1)
      (calls0 ++ res.1, ev :: res.2)

/-- main.rs 76–87: the loop body of `bulk_delete`, iterating over the
100-chunks; one `delete_messages` call and one counted operation per
chunk. -/
def bulkLoop (dry_run : Bool) (durs : Nat → Nat) :
    List (List Msg) → Nat → Nat → Nat → Nat → List Call × List OpEvent
  | [], _, _, _, _ => ([], [])
  | chunk :: rest, count, start_time, now, i =>
    let calls0 : List Call := if dry_run then [] else [.bulkDeleteCall chunk]
    let ev : OpEvent := ⟨now, start_time⟩
    let now1 := now + durs i
    let count1 := count + 1
    if METER_LIMIT ≤ count1 then
      let now2 := max now1 (start_time + 60)
      let res := bulkLoop dry_run durs rest 0 now2 now2 (i + 1)
      (calls0 ++ res.1, ev :: res.2)
    else
      let res := bulkLoop dry_run durs rest count1 start_time now1 (i + 1)
      (calls0 ++ res.1, ev :: res.2)

/-- The slice read performed by the `debug_assert!` of `bulk_delete`
(main.rs 69–71): `messages[messages.len() - 1]`, with `len - 1` at `Nat`
(an empty slice makes this read out of bounds). -/
def bulkAssertRead (messages : List Msg) : Option Msg :=
  messages.get? (messages.length - 1)

/-- The pacing loop of `bulk_delete` over the 100-chunks, started with a
fresh meter (`count = 0`, `start_time = now = t0`), main.rs 73–87. -/
def bulkRun (dry_run : Bool) (t0 : Nat) (durs : Nat → Nat)
    (messages : List Msg) : List Call × List OpEvent :=
  bulkLoop dry_run durs (chunks100 messages) 0 t0 t0 0

/-- main.rs 64–90: `bulk_delete`.  `debugAssertions` models the
`debug_assertions` build flag governing `debug_assert!`: when set, the
assertion `messages[messages.len() - 1].timestamp > now - 2 weeks` is
evaluated first and a violation (or the out-of-bounds read on an empty
slice) is a panic, modelled as `none`; in release the assertion is not
evaluated at all and the loop runs directly. -/
def bulk_delete (debugAssertions : Bool) (nowUtc : Int) (dry_run : Bool)
    (t0 : Nat) (durs : Nat → Nat) (messages : List Msg) :
    Option (List Call × List OpEvent) :=
  if debugAssertions then
    match bulkAssertRead messages with
    | none => none
    | some m =>
      if nowUtc - twoWeeks < m.timestamp then
        some (bulkRun dry_run t0 durs messages)
      else none
  else some (bulkRun dry_run t0 durs messages)

/-- main.rs 92–114: `slow_bulk_delete` — a fresh meter, then the
per-message pacing loop; no safety assertion. -/
def slow_bulk_delete (dry_run : Bool) (t0 : Nat) (durs : Nat → Nat)
    (messages : List Msg) : List Call × List OpEvent :=
  slowLoop dry_run durs messages 0 t0 t0 0

/-- The counted-operation trace of either pacing loop, as a function of
the number of iterations only (the events of `slowLoop` and `bulkLoop`
depend only on the meter state, not on the items or the dry-run flag). -/
def meterEvents (durs : Nat → Nat) :
    Nat → Nat → Nat → Nat → Nat → List OpEvent
  | 0, _, _, _, _ => []
  | n + 1, count, start_time, now, i =>
    let ev : OpEvent := ⟨now, start_time⟩
    let now1 := now + durs i
    let count1 := count + 1
    if METER_LIMIT ≤ count1 then
      let now2 := max now1 (start_time + 60)
      ev :: meterEvents durs n 0 now2 now2 (i + 1)
    else
      ev :: meterEvents durs n count1 start_time now1 (i + 1)

/-! ## Orchestrator: `purge_old` (main.rs 123–229)

The handler builds the thresholds, fetches the history, stops when there
are no candidates, computes the plan and renders the summary, posts the
confirmation prompt with yes/no buttons, and awaits at most one matching
interaction for 120 s.  The outcome of that await is the confirmation
decision.  The observable platform calls are modelled as an `Effect`
trace; the platform calls other than the history fetch are modelled as
succeeding (their failure paths return early and issue no further
calls). -/

/-- The tri-state confirmation outcome: the `yes` button
(`ComponentInteractionCollector` returned the yes id), the `no` button,
or the 120-second timeout (collector returned `None`). -/
inductive Decision where
  | confirmed
  | declined
  | timedOut
deriving DecidableEq, Repr

/-- An observable platform call of the `purge_old` handler.  `sendPrompt`
carries the data the rendered summary is built from (effective dry-run
flag, bulk count, slow count; the minute estimates are the separate
`plan*Estimate` definitions); `followupAck` carries whether the
acknowledged choice was yes. -/
inductive Effect where
  | deferAck
  | sendPrompt (dry_run : Bool) (bulk : Nat) (slow : Nat)
  | disableButtons
  | followupAck (yes : Bool)
  | deleteCall (msg : Msg)
  | bulkDeleteCall (chunk : List Msg)
deriving DecidableEq, Repr

/-- Whether an effect is a destructive (delete or batch-delete) call. -/
def Effect.isDestructive : Effect → Bool
  | .deleteCall _ => true
  | .bulkDeleteCall _ => true
  | _ => false

/-- main.rs 130: `let dry_run = dry_run.unwrap_or(false) || cfg!(debug);`.
`cfgDebug` models the `cfg!(debug)` build flag. -/
def dryRunEffective (dry_run : Option Bool) (cfgDebug : Bool) : Bool :=
  dry_run.getD false || cfgDebug

/-- main.rs 123–229: the `purge_old` handler.  `nowUtc1` is the
`Utc::now()` of line 129 (retention cutoff), `nowUtc2` the second
`Utc::now()` of line 138 (bulk cutoff, taken after the fetch); `hist` is
the channel's history stream and `decision` the confirmation outcome.
Returns the error of a failed fetch, or the trace of platform effects.
No branch issues a delete or batch-delete call: the handler ends after
acknowledging the interaction. -/
def purge_old (cfgDebug : Bool) (nowUtc1 nowUtc2 : Int)
    (hist : List (Except Unit Msg)) (dry_run : Option Bool)
    (decision : Decision) : Except Unit (List Effect) :=
  let before := nowUtc1 - 7 * secondsPerDay
  let dry := dryRunEffective dry_run cfgDebug
  match messages_before before hist with
  | .error e => .error e
  | .ok messages =>
    let bulk_cutoff := nowUtc2 - (13 * secondsPerDay + 12 * secondsPerHour)
    if messages.isEmpty then .ok [.deferAck]
    else
      let prompt : Effect :=
        .sendPrompt dry (bulkCount bulk_cutoff messages)
          (slowCount bulk_cutoff messages)
      match decision with
      | .timedOut => .ok [.deferAck, prompt]
      | .confirmed =>
        .ok [.deferAck, prompt, .disableButtons, .followupAck true]
      | .declined =>
        .ok [.deferAck, prompt, .disableButtons, .followupAck false]

/-! ## Lemmas about the history fetch -/

/-- Collecting an all-`Ok` stream succeeds with the underlying messages. -/
theorem tryCollect_map_ok (l : List Msg) :
    tryCollect (l.map Except.ok) = Except.ok l := by
  induction l with
  | nil => rfl
  | cons m rest ih => simp [tryCollect, ih, Except.map]

/-- A stream containing an `Err` item never collects: the error
propagates and any partial result is discarded. -/
theorem tryCollect_error (l : List (Except Unit Msg))
    (h : Except.error () ∈ l) : tryCollect l = Except.error () := by
  induction l with
  | nil => cases h
  | cons x rest ih =>
    cases x with
    | error e => rfl
    | ok m =>
      have hmem : Except.error () ∈ rest := by
        rcases List.mem_cons.mp h with h1 | h1
        · cases h1
        · exact h1
      simp [tryCollect, ih hmem, Except.map]

/-- An element the predicate rejects survives `dropWhile`. -/
theorem mem_dropWhile_of_mem {α : Type} (p : α → Bool) (l : List α)
    (e : α) (he : e ∈ l) (hp : p e = false) : e ∈ l.dropWhile p := by
  induction l with
  | nil => cases he
  | cons x rest ih =>
    rcases List.mem_cons.mp he with h1 | h1
    · subst h1
      rw [List.dropWhile_cons, if_neg (by simp [hp])]
      exact List.mem_cons_self _ _
    · rw [List.dropWhile_cons]
      by_cases hx : p x = true
      · rw [if_pos hx]; exact ih h1
      · rw [if_neg hx]; exact List.mem_cons_of_mem _ h1

/-- On a newest-first (non-increasing timestamp) list, dropping the
leading messages at or after `before` is exactly filtering to the
messages strictly before `before`. -/
theorem dropWhile_eq_filter_of_sorted (before : Int) (l : List Msg)
    (hs : l.Pairwise (fun a b => b.timestamp ≤ a.timestamp)) :
    l.dropWhile (fun m => decide (before ≤ m.timestamp)) =
      l.filter (fun m => decide (m.timestamp < before)) := by
  induction l with
  | nil => rfl
  | cons x rest ih =>
    rcases List.pairwise_cons.mp hs with ⟨hall, hrest⟩
    by_cases hx : before ≤ x.timestamp
    · rw [List.dropWhile_cons, if_pos (by simpa using hx),
        List.filter_cons_of_neg (by simpa using not_lt.mpr hx)]
      exact ih hrest
    · push_neg at hx
      rw [List.dropWhile_cons, if_neg (by simpa using not_le.mpr hx),
        List.filter_cons_of_pos (by simpa using hx)]
      congr 1
      symm
      refine List.filter_eq_self.mpr (fun a ha => ?_)
      simpa using lt_of_le_of_lt (hall a ha) hx

/-- Claim C3: on a history stream ordered newest-first, the fetch
returns exactly the messages strictly older than the cutoff — the
filtered sublist, in order — and a stream containing a source-level
error makes the whole fetch abort with that error and no partial
result. -/
theorem fetch_correct (before : Int) (msgs : List Msg)
    (hist : List (Except Unit Msg)) :
    (hist = msgs.map Except.ok →
      msgs.Pairwise (fun a b => b.timestamp ≤ a.timestamp) →
      messages_before before hist =
        Except.ok (msgs.filter (fun m => decide (m.timestamp < before)))) ∧
    (Except.error () ∈ hist →
      messages_before before hist = Except.error ()) := by
  constructor
  · intro hh hs
    subst hh
    unfold messages_before
    have hmap : (msgs.map Except.ok).dropWhile (skipPred before) =
        (msgs.dropWhile (skipPred before ∘ Except.ok)).map Except.ok :=
      List.dropWhile_map Except.ok (skipPred before) msgs
    rw [hmap]
    have hpred : (skipPred before ∘ Except.ok) =
        (fun m : Msg => decide (before ≤ m.timestamp)) := rfl
    rw [hpred, dropWhile_eq_filter_of_sorted before msgs hs, tryCollect_map_ok]
  · intro herr
    unfold messages_before
    exact tryCollect_error _
      (mem_dropWhile_of_mem (skipPred before) hist _ herr rfl)

/-- Claim C3, witness: a concrete sorted two-message history filters to
the single old message, and a history with an error item aborts. -/
theorem fetch_correct_witness :
    messages_before 10 [Except.ok (⟨0, 20, 0⟩ : Msg), Except.ok ⟨1, 5, 0⟩] =
      Except.ok [⟨1, 5, 0⟩] ∧
    messages_before 10 [Except.ok (⟨0, 20, 0⟩ : Msg), Except.error ()] =
      Except.error () := by
  constructor
  · have h := (fetch_correct 10 [⟨0, 20, 0⟩, ⟨1, 5, 0⟩]
      ([⟨0, 20, 0⟩, ⟨1, 5, 0⟩].map Except.ok)).1 rfl (by decide)
    simpa using h
  · exact (fetch_correct 10 []
      [Except.ok (⟨0, 20, 0⟩ : Msg), Except.error ()]).2 (by simp)

/-! ## Orchestrator and planner facts (claims C1, C2, C9) -/

/-- Decidable equality of `Except` results, for evaluating the embedded
fallible functions on concrete inputs. -/
instance {ε α : Type} [DecidableEq ε] [DecidableEq α] :
    DecidableEq (Except ε α) := fun a b =>
  match a, b with
  | .ok x, .ok y => decidable_of_iff (x = y) (by simp)
  | .error x, .error y => decidable_of_iff (x = y) (by simp)
  | .ok _, .error _ => isFalse (by simp)
  | .error _, .ok _ => isFalse (by simp)

/-- Claim C1 (code bug): on a non-empty candidate sequence with the
confirmation decision Confirmed, `purge_old` still issues zero delete or
batch-delete calls — the handler ends after acknowledging the button;
`bulk_delete` and `slow_bulk_delete` are never invoked (dead code).  The
concrete run below fetches one candidate (timestamp 100, cutoff 395200),
receives Confirmed, and produces an effect trace with no destructive
call. -/
theorem purge_old_confirmed_issues_no_deletes :
    purge_old false 1000000 1000000 [Except.ok ⟨0, 100, 0⟩] (some false)
        Decision.confirmed =
      Except.ok [Effect.deferAck, Effect.sendPrompt false 0 0,
        Effect.disableButtons, Effect.followupAck true] ∧
    ([Effect.deferAck, Effect.sendPrompt false 0 0,
        Effect.disableButtons, Effect.followupAck true].filter
        Effect.isDestructive) = [] ∧
    messages_before (1000000 - 7 * secondsPerDay) [Except.ok ⟨0, 100, 0⟩] =
      Except.ok [⟨0, 100, 0⟩] := by
  refine ⟨by decide, by decide, by decide⟩

/-- Claim C2 (code bug): with a single candidate newer than the bulk
cutoff (timestamp 20, cutoff 10) the code's `slow_index.unwrap_or(0)`
yields `bulkCount = 0` and `slowCount = 0`, so `bulkCount + slowCount`
is `0` while the candidate sequence has length `1` — the partition is
not complete in the no-slow-message case. -/
theorem planner_counts_at_all_bulk_input :
    slowIndex 10 [(⟨0, 20, 0⟩ : Msg)] = none ∧
    bulkCount 10 [(⟨0, 20, 0⟩ : Msg)] + slowCount 10 [(⟨0, 20, 0⟩ : Msg)] = 0 ∧
    ([(⟨0, 20, 0⟩ : Msg)] : List Msg).length = 1 := by
  decide

/-- Claim C9: line 130 — an omitted `dry_run` defaults to `false`, and
with the `cfg!(debug)` flag set the effective value is `true` whatever
was supplied; without the flag the supplied value is used as is. -/
theorem dry_run_default_and_debug_forcing :
    dryRunEffective none false = false ∧
    (∀ o : Option Bool, dryRunEffective o true = true) ∧
    (∀ b : Bool, dryRunEffective (some b) false = b) := by
  refine ⟨rfl, ?_, ?_⟩
  · intro o; cases o <;> simp [dryRunEffective]
  · intro b; cases b <;> rfl

/-! ## The `debug_assert!` of `bulk_delete` (claims C8, C10) -/

/-- Claim C10: calling `bulk_delete` on an empty message list makes the
assertion read index `len - 1` of an empty slice — out of bounds, a
panic when `debug_assertions` is on — while in a release build the
assertion (and with it the stale-plan check) is not evaluated at all and
the phase completes with zero calls. -/
theorem bulk_delete_empty_assert_oob :
    bulkAssertRead [] = none ∧
    bulk_delete true 0 false 0 (fun _ => 0) [] = none ∧
    bulk_delete false 0 false 0 (fun _ => 0) [] = some ([], []) := by
  refine ⟨rfl, rfl, ?_⟩
  simp [bulk_delete, bulkRun, chunks100, bulkLoop]

/-- Claim C8: with `debug_assertions` on, `bulk_delete` checks the
oldest message of its worklist (the element at index `len - 1`, the last
and hence oldest of the newest-first plan) before any deletion: if that
message is older than 14 days before the execution-time `Utc::now()`,
the run is fatal (`none`, no call issued); otherwise the deletion loop
runs. -/
theorem bulk_delete_stale_plan_guard (nowUtc : Int) (dry_run : Bool)
    (t0 : Nat) (durs : Nat → Nat) (messages : List Msg) (m : Msg)
    (hm : bulkAssertRead messages = some m) :
    messages.getLast? = some m ∧
    (m.timestamp ≤ nowUtc - twoWeeks →
      bulk_delete true nowUtc dry_run t0 durs messages = none) ∧
    (nowUtc - twoWeeks < m.timestamp →
      bulk_delete true nowUtc dry_run t0 durs messages =
        some (bulkRun dry_run t0 durs messages)) := by
  refine ⟨?_, ?_, ?_⟩
  · rw [List.getLast?_eq_get?]
    exact hm
  · intro h
    unfold bulk_delete
    rw [if_pos rfl, hm]
    exact if_neg (not_lt.mpr h)
  · intro h
    unfold bulk_delete
    rw [if_pos rfl, hm]
    exact if_pos h

/-- Claim C8, witness: a one-message plan 15 days old is fatal under
`debug_assertions`, and its last message is the one the assertion
read. -/
theorem bulk_delete_stale_plan_guard_witness :
    ([(⟨0, 10, 0⟩ : Msg)] : List Msg).getLast? = some ⟨0, 10, 0⟩ ∧
    bulk_delete true 1300000 false 0 (fun _ => 0) [⟨0, 10, 0⟩] = none := by
  have h := bulk_delete_stale_plan_guard 1300000 false 0 (fun _ => 0)
    [⟨0, 10, 0⟩] ⟨0, 10, 0⟩ rfl
  exact ⟨h.1, h.2.1 (by decide)⟩

/-! ## Lemmas about the bulk chunking and the pacing loops -/

/-- The 100-chunks concatenate back to the original list: the bulk phase
covers every bulk-eligible message exactly once, in order. -/
theorem chunks100_join (l : List Msg) : (chunks100 l).join = l := by
  by_cases h : l = []
  · subst h; rw [chunks100]; simp
  · rw [chunks100, dif_neg h]
    show List.take 100 l ++ (chunks100 (l.drop 100)).join = l
    rw [chunks100_join (l.drop 100)]
    exact List.take_append_drop 100 l
termination_by l.length
decreasing_by
  simp only [List.length_drop]
  exact Nat.sub_lt (List.length_pos.mpr h) (by norm_num)

/-- Every 100-chunk is non-empty and holds at most 100 messages. -/
theorem chunks100_mem (l : List Msg) (c : List Msg)
    (hc : c ∈ chunks100 l) : c.length ≤ 100 ∧ c ≠ [] := by
  by_cases h : l = []
  · subst h; rw [chunks100] at hc; simp at hc
  · rw [chunks100, dif_neg h] at hc
    rcases List.mem_cons.mp hc with h1 | h1
    · subst h1
      have hl : 0 < l.length := List.length_pos.mpr h
      constructor
      · simp [List.length_take]
      · apply List.ne_nil_of_length_pos
        rw [List.length_take]
        omega
    · exact chunks100_mem (l.drop 100) c h1
termination_by l.length
decreasing_by
  simp only [List.length_drop]
  exact Nat.sub_lt (List.length_pos.mpr h) (by norm_num)

/-- There are exactly `⌈len / 100⌉` chunks. -/
theorem chunks100_length (l : List Msg) :
    (chunks100 l).length = (l.length + 99) / 100 := by
  by_cases h : l = []
  · subst h; rw [chunks100]; simp
  · rw [chunks100, dif_neg h]
    simp only [List.length_cons, chunks100_length (l.drop 100),
      List.length_drop]
    have hl : 0 < l.length := List.length_pos.mpr h
    omega
termination_by l.length
decreasing_by
  simp only [List.length_drop]
  exact Nat.sub_lt (List.length_pos.mpr h) (by norm_num)

/-- A wet (non-dry) bulk loop issues exactly one batch-delete call per
chunk, in order. -/
theorem bulkLoop_calls_wet (durs : Nat → Nat) (chs : List (List Msg)) :
    ∀ count start_time now i,
      (bulkLoop false durs chs count start_time now i).1 =
        chs.map Call.bulkDeleteCall := by
  induction chs with
  | nil => intro c s n i; rfl
  | cons ch rest ih =>
    intro c s n i
    simp only [bulkLoop]
    split <;> simp [ih]

/-- A dry bulk loop issues no call at all. -/
theorem bulkLoop_calls_dry (durs : Nat → Nat) (chs : List (List Msg)) :
    ∀ count start_time now i,
      (bulkLoop true durs chs count start_time now i).1 = [] := by
  induction chs with
  | nil => intro c s n i; rfl
  | cons ch rest ih =>
    intro c s n i
    simp only [bulkLoop]
    split <;> simp [ih]

/-- A wet slow loop issues exactly one delete call per message, in
order. -/
theorem slowLoop_calls_wet (durs : Nat → Nat) (msgs : List Msg) :
    ∀ count start_time now i,
      (slowLoop false durs msgs count start_time now i).1 =
        msgs.map Call.deleteCall := by
  induction msgs with
  | nil => intro c s n i; rfl
  | cons msg rest ih =>
    intro c s n i
    simp only [slowLoop]
    split <;> simp [ih]

/-- A dry slow loop issues no call at all. -/
theorem slowLoop_calls_dry (durs : Nat → Nat) (msgs : List Msg) :
    ∀ count start_time now i,
      (slowLoop true durs msgs count start_time now i).1 = [] := by
  induction msgs with
  | nil => intro c s n i; rfl
  | cons msg rest ih =>
    intro c s n i
    simp only [slowLoop]
    split <;> simp [ih]

/-- The counted-operation trace of the bulk loop depends only on the
number of chunks and the meter state — not on the chunk contents or the
dry-run flag. -/
theorem bulkLoop_events (dry_run : Bool) (durs : Nat → Nat)
    (chs : List (List Msg)) :
    ∀ count start_time now i,
      (bulkLoop dry_run durs chs count start_time now i).2 =
        meterEvents durs chs.length count start_time now i := by
  induction chs with
  | nil => intro c s n i; rfl
  | cons ch rest ih =>
    intro c s n i
    simp only [bulkLoop, List.length_cons, meterEvents]
    split <;> simp [ih]

/-- The counted-operation trace of the slow loop depends only on the
number of messages and the meter state. -/
theorem slowLoop_events (dry_run : Bool) (durs : Nat → Nat)
    (msgs : List Msg) :
    ∀ count start_time now i,
      (slowLoop dry_run durs msgs count start_time now i).2 =
        meterEvents durs msgs.length count start_time now i := by
  induction msgs with
  | nil => intro c s n i; rfl
  | cons msg rest ih =>
    intro c s n i
    simp only [slowLoop, List.length_cons, meterEvents]
    split <;> simp [ih]

/-- One counted operation per iteration. -/
theorem meterEvents_length (durs : Nat → Nat) (n : Nat) :
    ∀ count start_time now i,
      (meterEvents durs n count start_time now i).length = n := by
  induction n with
  | zero => intro c s now i; rfl
  | succ k ih =>
    intro c s now i
    simp only [meterEvents]
    split <;> simp [ih]

/-- Claim C5: the wet bulk phase partitions its messages into the
consecutive 100-chunks (which concatenate back to the input and each
hold at most 100 messages), issues exactly one batch-delete call per
chunk — `⌈n / 100⌉` calls in total — and counts one meter operation per
call, not per message. -/
theorem bulk_phase_one_call_per_chunk (t0 : Nat) (durs : Nat → Nat)
    (messages : List Msg) :
    (bulkRun false t0 durs messages).1 =
      (chunks100 messages).map Call.bulkDeleteCall ∧
    (chunks100 messages).join = messages ∧
    (∀ ch ∈ chunks100 messages, ch.length ≤ 100) ∧
    (chunks100 messages).length = (messages.length + 99) / 100 ∧
    (bulkRun false t0 durs messages).2.length = (chunks100 messages).length := by
  refine ⟨bulkLoop_calls_wet durs (chunks100 messages) 0 t0 t0 0,
    chunks100_join messages,
    fun ch hch => (chunks100_mem messages ch hch).1,
    chunks100_length messages, ?_⟩
  rw [bulkRun, bulkLoop_events false durs (chunks100 messages) 0 t0 t0 0,
    meterEvents_length]

/-- Claim C5, witness: on a concrete two-message list the wet bulk
phase issues exactly one batch-delete call carrying both messages. -/
theorem bulk_phase_one_call_per_chunk_witness :
    (bulkRun false 0 (fun _ => 0) [⟨0, 1, 0⟩, ⟨1, 2, 0⟩]).1 =
      (chunks100 [⟨0, 1, 0⟩, ⟨1, 2, 0⟩]).map Call.bulkDeleteCall ∧
    (chunks100 [(⟨0, 1, 0⟩ : Msg), ⟨1, 2, 0⟩]).length = 1 := by
  have h := bulk_phase_one_call_per_chunk 0 (fun _ => 0) [⟨0, 1, 0⟩, ⟨1, 2, 0⟩]
  exact ⟨h.1, by rw [h.2.2.2.1]; rfl⟩

/-- Claim C7: dry-run purity — with the same per-iteration wall-clock
costs, a dry run of either deletion phase issues zero destructive calls
while producing exactly the same counted-operation trace (count and
window-suspension behaviour) as the wet run on the same input. -/
theorem dry_run_purity (t0 : Nat) (durs : Nat → Nat) (messages : List Msg) :
    (slow_bulk_delete true t0 durs messages).1 = [] ∧
    (slow_bulk_delete true t0 durs messages).2 =
      (slow_bulk_delete false t0 durs messages).2 ∧
    (bulkRun true t0 durs messages).1 = [] ∧
    (bulkRun true t0 durs messages).2 = (bulkRun false t0 durs messages).2 := by
  refine ⟨slowLoop_calls_dry durs messages 0 t0 t0 0, ?_,
    bulkLoop_calls_dry durs (chunks100 messages) 0 t0 t0 0, ?_⟩
  · rw [slow_bulk_delete, slow_bulk_delete,
      slowLoop_events true durs messages 0 t0 t0 0,
      slowLoop_events false durs messages 0 t0 t0 0]
  · rw [bulkRun, bulkRun,
      bulkLoop_events true durs (chunks100 messages) 0 t0 t0 0,
      bulkLoop_events false durs (chunks100 messages) 0 t0 t0 0]

/-! ## Estimates (claim C6) -/

/-- Claim C6: for every plan, the slow-phase estimate equals
`slowCount / METER_LIMIT` minutes, the bulk-phase estimate equals
`bulkCount / (METER_LIMIT * 100)` minutes with `METER_LIMIT = 500`, the
total is their sum, and a segment with zero messages contributes exactly
`0` (rational model of the `f64` arithmetic). -/
theorem estimate_formulas (bulkCutoff : Int) (messages : List Msg) :
    METER_LIMIT = 500 ∧
    planSlowEstimate bulkCutoff messages =
      (slowCount bulkCutoff messages : ℚ) / (METER_LIMIT : ℚ) ∧
    planBulkEstimate bulkCutoff messages =
      (bulkCount bulkCutoff messages : ℚ) / ((METER_LIMIT * 100 : ℕ) : ℚ) ∧
    planTotalEstimate bulkCutoff messages =
      planSlowEstimate bulkCutoff messages +
        planBulkEstimate bulkCutoff messages ∧
    (slowCount bulkCutoff messages = 0 →
      planSlowEstimate bulkCutoff messages = 0) ∧
    (bulkCount bulkCutoff messages = 0 →
      planBulkEstimate bulkCutoff messages = 0) := by
  have hslow : planSlowEstimate bulkCutoff messages =
      (slowCount bulkCutoff messages : ℚ) / (METER_LIMIT : ℚ) := by
    unfold planSlowEstimate slowCount
    cases slowIndex bulkCutoff messages with
    | none => simp
    | some idx => rfl
  have hbulk : planBulkEstimate bulkCutoff messages =
      (bulkCount bulkCutoff messages : ℚ) / ((METER_LIMIT * 100 : ℕ) : ℚ) := by
    unfold planBulkEstimate
    by_cases hpos : 0 < bulkCount bulkCutoff messages
    · rw [if_pos hpos]
    · rw [if_neg hpos]
      have hz : bulkCount bulkCutoff messages = 0 := by omega
      rw [hz]
      simp
  refine ⟨rfl, hslow, hbulk, rfl, ?_, ?_⟩
  · intro hz; rw [hslow, hz]; simp
  · intro hz; rw [hbulk, hz]; simp

/-- Claim C6, witness: concrete evaluation — one slow message (cutoff
10, timestamps 20 and 5) gives a slow estimate of `1/500` minute, and a
plan with no slow message has slow estimate exactly `0`. -/
theorem estimate_formulas_witness :
    planSlowEstimate 10 [(⟨0, 20, 0⟩ : Msg), ⟨1, 5, 0⟩] =
      ((slowCount 10 [(⟨0, 20, 0⟩ : Msg), ⟨1, 5, 0⟩] : ℚ) / (METER_LIMIT : ℚ)) ∧
    planSlowEstimate 10 [(⟨0, 20, 0⟩ : Msg)] = 0 := by
  refine ⟨(estimate_formulas 10 [⟨0, 20, 0⟩, ⟨1, 5, 0⟩]).2.1, ?_⟩
  exact (estimate_formulas 10 [⟨0, 20, 0⟩]).2.2.2.2.1 (by decide)

/-! ## The fixed-window rate bound (claim C4)

The spec's rate bound is verified with a fast-forwarding clock: each
operation is instantaneous (`durs i = 0`) and the 60-second suspension
jumps the clock.  Under that clock the meter trace has a closed form —
operation `k` of a fresh phase is issued at
`t0 + 60 * (k / METER_LIMIT)` — from which any 60-second window is seen
to hold at most `METER_LIMIT` counted operations. -/

/-- A Boolean predicate on naturals that implies membership in an
interval of length `m` selects at most `m` elements of `List.range n`. -/
theorem filter_range_interval_bound (S : Nat → Bool) (b m : Nat)
    (h : ∀ k, S k = true → b ≤ k ∧ k < b + m) (n : Nat) :
    ((List.range n).filter S).length ≤ m := by
  have key : ∀ n, ((List.range n).filter S).length ≤
      min (b + m) n - min b n := by
    intro n
    induction n with
    | zero => simp
    | succ j ih =>
      rw [List.range_succ, List.filter_append, List.length_append]
      by_cases hS : S j = true
      · have hj := h j hS
        rw [List.filter_cons, if_pos hS]
        simp only [List.filter_nil, List.length_cons, List.length_nil]
        omega
      · rw [List.filter_cons, if_neg hS]
        simp only [List.filter_nil, List.length_nil]
        omega
  exact le_trans (key n) (by omega)

/-- Closed form of the meter trace under a fast-forwarding clock: from
meter state `(count = c, window start = now = w)`, operation `k` is
issued at instant `w + 60 * ((c + k) / METER_LIMIT)`, which is also its
window start. -/
theorem meterEvents_closed_form (durs : Nat → Nat) (hd : ∀ j, durs j = 0) :
    ∀ (n c w i : Nat), c < METER_LIMIT →
      meterEvents durs n c w w i =
        (List.range n).map (fun k =>
          OpEvent.mk (w + 60 * ((c + k) / METER_LIMIT))
            (w + 60 * ((c + k) / METER_LIMIT))) := by
  intro n
  induction n with
  | zero => intro c w i hc; rfl
  | succ m ih =>
    intro c w i hc
    rw [List.range_succ_eq_map, List.map_cons, List.map_map]
    simp only [meterEvents, hd, Nat.add_zero]
    have hhead : c / METER_LIMIT = 0 := Nat.div_eq_of_lt hc
    by_cases hreach : METER_LIMIT ≤ c + 1
    · have hceq : c + 1 = METER_LIMIT := Nat.le_antisymm hc hreach
      have hmax : max w (w + 60) = w + 60 := max_eq_right (by omega)
      rw [if_pos hreach, hmax, ih 0 (w + 60) (i + 1) (by simp [METER_LIMIT])]
      have htail : (fun k => OpEvent.mk ((w + 60) + 60 * ((0 + k) / METER_LIMIT))
            ((w + 60) + 60 * ((0 + k) / METER_LIMIT))) =
          ((fun k => OpEvent.mk (w + 60 * ((c + k) / METER_LIMIT))
            (w + 60 * ((c + k) / METER_LIMIT))) ∘ Nat.succ) := by
        funext k
        have hdiv : (c + Nat.succ k) / METER_LIMIT = k / METER_LIMIT + 1 := by
          have hck : c + Nat.succ k = k + METER_LIMIT := by omega
          rw [hck, Nat.add_div_right k (by simp [METER_LIMIT])]
        simp only [Function.comp, OpEvent.mk.injEq, hdiv, Nat.zero_add]
        omega
      rw [htail]
      simp [hhead]
    · have hlt : c + 1 < METER_LIMIT := Nat.lt_of_not_le hreach
      rw [if_neg hreach, ih (c + 1) w (i + 1) hlt]
      have htail : (fun k => OpEvent.mk (w + 60 * ((c + 1 + k) / METER_LIMIT))
            (w + 60 * ((c + 1 + k) / METER_LIMIT))) =
          ((fun k => OpEvent.mk (w + 60 * ((c + k) / METER_LIMIT))
            (w + 60 * ((c + k) / METER_LIMIT))) ∘ Nat.succ) := by
        funext k
        have hck : c + 1 + k = c + Nat.succ k := by omega
        simp only [Function.comp, hck]
      rw [htail]
      simp [hhead]

/-- Any 60-second window holds at most `METER_LIMIT` counted operations
of a fresh-meter trace under the fast-forwarding clock. -/
theorem meterEvents_window_bound (durs : Nat → Nat) (hd : ∀ j, durs j = 0)
    (n w a i : Nat) :
    ((meterEvents durs n 0 w w i).filter
      (fun e => decide (a ≤ e.time) && decide (e.time < a + 60))).length
      ≤ METER_LIMIT := by
  rw [meterEvents_closed_form durs hd n 0 w i (by simp [METER_LIMIT]),
    List.filter_map, List.length_map]
  by_cases hex : ∃ q, a ≤ w + 60 * q ∧ w + 60 * q < a + 60
  · obtain ⟨q0, hq0a, hq0b⟩ := hex
    apply filter_range_interval_bound _ (METER_LIMIT * q0) METER_LIMIT _ n
    intro k hk
    simp only [Function.comp, Bool.and_eq_true, decide_eq_true_eq] at hk
    have : (0 + k) / METER_LIMIT = q0 := by
      simp only [METER_LIMIT] at hk hq0a hq0b ⊢
      omega
    simp only [METER_LIMIT] at this ⊢
    omega
  · push_neg at hex
    have hnil : (List.range n).filter
        ((fun e : OpEvent => decide (a ≤ e.time) && decide (e.time < a + 60)) ∘
          (fun k => OpEvent.mk (w + 60 * ((0 + k) / METER_LIMIT))
            (w + 60 * ((0 + k) / METER_LIMIT)))) = [] := by
      apply List.filter_eq_nil.mpr
      intro k _
      simp only [Function.comp, Bool.and_eq_true, decide_eq_true_eq, not_and]
      intro hka
      exact not_lt.mpr (hex ((0 + k) / METER_LIMIT) hka)
    rw [hnil]
    simp [METER_LIMIT]

/-- Claim C4: each deletion phase starts a fresh meter, and — on the
fast-forwarding clock of instantaneous operations — the number of
counted operations whose issue instant falls inside any 60-second
half-open window `[a, a + 60)` never exceeds `METER_LIMIT = 500`, for
the slow phase and for the bulk phase alike. -/
theorem rate_window_bound (dry_run : Bool) (durs : Nat → Nat)
    (hd : ∀ j, durs j = 0) (t0s t0b a : Nat) (messages : List Msg) :
    ((slow_bulk_delete dry_run t0s durs messages).2.filter
      (fun e => decide (a ≤ e.time) && decide (e.time < a + 60))).length
      ≤ METER_LIMIT ∧
    ((bulkRun dry_run t0b durs messages).2.filter
      (fun e => decide (a ≤ e.time) && decide (e.time < a + 60))).length
      ≤ METER_LIMIT := by
  constructor
  · rw [slow_bulk_delete, slowLoop_events dry_run durs messages 0 t0s t0s 0]
    exact meterEvents_window_bound durs hd messages.length t0s a 0
  · rw [bulkRun, bulkLoop_events dry_run durs (chunks100 messages) 0 t0b t0b 0]
    exact meterEvents_window_bound durs hd (chunks100 messages).length t0b a 0

/-- Claim C4, witness: the window `[0, 60)` of a concrete one-message
slow phase holds at most `METER_LIMIT` counted operations. -/
theorem rate_window_bound_witness :
    ((slow_bulk_delete false 0 (fun _ => 0) [⟨0, 1, 0⟩]).2.filter
      (fun e => decide (0 ≤ e.time) && decide (e.time < 0 + 60))).length
      ≤ METER_LIMIT :=
  (rate_window_bound false (fun _ => 0) (fun _ => rfl) 0 0 0 [⟨0, 1, 0⟩]).1

/-- Claim C7, witness: the dry one-message slow phase issues no call. -/
theorem dry_run_purity_witness :
    (slow_bulk_delete true 0 (fun _ => 0) [⟨0, 1, 0⟩]).1 = [] :=
  (dry_run_purity 0 (fun _ => 0) [⟨0, 1, 0⟩]).1

/-- Claim C9, witness: with the `cfg!(debug)` flag set, a supplied
`dry_run = some false` is still forced to `true`. -/
theorem dry_run_default_and_debug_forcing_witness :
    dryRunEffective (some false) true = true :=
  dry_run_default_and_debug_forcing.2.1 (some false)
